import Mathlib

/-!
Verification of the ptyx core (PTY agent, middleware engine, adapter registry,
agent pool) against its natural-language specification.

The definitions below are a shallow embedding of the TypeScript sources:
`src/utils.ts` (message construction, ANSI stripping, pattern matching),
`src/agent.ts` (PtyAgent: send / handleOutput / middleware chain / waitFor,
and AgentPool: acquire / release / warmup / idle sweep / exit handling) and
`src/adapters.ts` (the process-wide adapter registry).  Stateful methods are
embedded as pure state-transition functions; each send or output flush runs
its middleware chain to completion as one atomic step, matching the
serialized per-session scheduling model of the specification.  Fields that
no claim observes (timestamps, metadata bags, debug logging, statistics
counters) are omitted.
-/

namespace Ptyx

/-! ## utils.ts -/

/-- Character class of the single-character escape branch of the stripAnsi
regular expression: `[@-Z\\-_]`, i.e. 0x40..0x5A and 0x5C..0x5F. -/
def ansiFe (c : Char) : Bool :=
  (('@' ≤ c) && (c ≤ 'Z')) || (('\\' ≤ c) && (c ≤ '_'))

/-- CSI parameter bytes, 0x30..0x3F. -/
def ansiParam (c : Char) : Bool := ('0' ≤ c) && (c ≤ '?')

/-- CSI intermediate bytes, 0x20..0x2F. -/
def ansiInter (c : Char) : Bool := (' ' ≤ c) && (c ≤ '/')

/-- CSI final bytes, 0x40..0x7E. -/
def ansiFinal (c : Char) : Bool := ('@' ≤ c) && (c ≤ '~')

/-- Parse the tail of a CSI sequence (parameter bytes, then intermediate
bytes, then one final byte, after the two characters ESC and open bracket):
returns the remaining characters after the final byte, or `none` when the
sequence does not match.  The three classes are pairwise disjoint, so the
greedy scan agrees with the regular expression. -/
def csiSuffix (l : List Char) : Option (List Char) :=
  match (l.dropWhile ansiParam).dropWhile ansiInter with
  | [] => none
  | f :: rest => if ansiFinal f then some rest else none

/-- Worker for `stripAnsi`, structurally recursive on a fuel argument that is
always at least the length of the remaining input (every recursive call moves
to a proper suffix). -/
def stripAnsiGo : Nat → List Char → List Char
  | _, [] => []
  | 0, l => l
  | fuel + 1, c :: rest =>
    if c = '\x1b' then
      match rest with
      | [] => [c]
      | d :: rest2 =>
        if d = '[' then
          match csiSuffix rest2 with
          | some rest3 => stripAnsiGo fuel rest3
          | none => c :: stripAnsiGo fuel rest
        else if ansiFe d then stripAnsiGo fuel rest2
        else c :: stripAnsiGo fuel rest
    else c :: stripAnsiGo fuel rest

/-- Embedding of `stripAnsi` from utils.ts: delete every match of the pattern
"ESC followed by either a single Fe byte or a CSI sequence", left to
right. -/
def stripAnsi (s : String) : String :=
  String.mk (stripAnsiGo s.data.length s.data)

/-- Message direction; `'in'` = caller to child, `'out'` = child to caller. -/
inductive MessageDirection
  | inbound
  | outbound
deriving DecidableEq, Repr

/-- Message from types.ts / `createMessage` in utils.ts; `ts` and the `meta`
annotation bag (never read by the engine) are omitted. -/
structure Message where
  raw : String
  text : String
  direction : MessageDirection
  seq : Nat
  agentId : String
deriving DecidableEq, Repr

/-- Embedding of `createMessage` from utils.ts. -/
def createMessage (raw : String) (direction : MessageDirection)
    (agentId : String) (seq : Nat) : Message :=
  { raw := raw
    text := stripAnsi raw
    direction := direction
    seq := seq
    agentId := agentId }

/-- Embedding of `formatLine` from utils.ts: append a newline only when absent. -/
def formatLine (data : String) : String :=
  if data.endsWith "\n" then data else data ++ "\n"

/-- A wait pattern is either a literal substring or a regular expression;
regular expressions are embedded as their induced test predicate. -/
inductive Pattern
  | lit (s : String)
  | regexTest (test : String → Bool)

/-- Embedding of `matchPattern` from utils.ts: substring containment for a string
pattern, `pattern.test(text)` for a regular expression. -/
def matchPattern (text : String) (p : Pattern) : Bool :=
  match p with
  | .lit s => decide (List.IsInfix s.toList text.toList)
  | .regexTest t => t text

/-! ## agent.ts: middleware engine -/

/-- Middleware direction filter from types.ts: `'in' | 'out' | 'both'`. -/
inductive MwDirection
  | inbound
  | outbound
  | both
deriving DecidableEq, Repr

/-- Middleware from types.ts.  The handler `fn(msg, ctx, next)` is embedded
by its observable interaction with the engine: it may rewrite the message
and either invokes the `next` continuation once (second component `true`)
or returns without invoking it (second component `false`). -/
structure Middleware where
  name : String
  direction : MwDirection
  priority : Option Int
  enabled : Option Bool
  fn : Message → Message × Bool

/-- The effective priority `mw.priority ?? 100` used by `PtyAgent.use`. -/
def priorityOf (mw : Middleware) : Int :=
  mw.priority.getD 100

/-- Embedding of `PtyAgent.use`: insert before the first existing middleware whose
effective priority is strictly greater (findIndex + splice), appending when
none is. -/
def use : List Middleware → Middleware → List Middleware
  | [], mw => [mw]
  | m :: rest, mw =>
    if priorityOf mw < priorityOf m then mw :: m :: rest
    else m :: use rest mw

/-- The chain obtained by registering the given middleware in order via
`use`, as the PtyAgent constructor does for `config.middleware`. -/
def buildChain (mws : List Middleware) : List Middleware :=
  mws.foldl use []

/-- The applicability test of `PtyAgent.runMiddleware`:
`(mw.enabled !== false) && (mw.direction === 'both' || mw.direction === direction)`. -/
def mwApplicable (direction : MessageDirection) (mw : Middleware) : Bool :=
  (mw.enabled != some false) &&
    (mw.direction == .both ||
      (match mw.direction, direction with
       | .inbound, .inbound => true
       | .outbound, .outbound => true
       | _, _ => false))

/-- The filtered chain `applicable` of `PtyAgent.runMiddleware`. -/
def applicableFor (mws : List Middleware) (direction : MessageDirection) :
    List Middleware :=
  mws.filter (mwApplicable direction)

/-- The chain execution of `PtyAgent.runMiddleware`: run each stage in
order; a stage that does not invoke `next` stops the chain.  Returns the
final (possibly rewritten) message together with the names of the stages
that ran. -/
def runChain : List Middleware → Message → Message × List String
  | [], msg => (msg, [])
  | mw :: rest, msg =>
    let step := mw.fn msg
    if step.2 then
      let tail := runChain rest step.1
      (tail.1, mw.name :: tail.2)
    else (step.1, [mw.name])

/-! ## agent.ts: PtyAgent state -/

/-- The PtyAgent state observed by the claims.  `written` records the data
actually delivered to the pseudo-terminal by `write`; the pty handle,
flush buffer, restart counter and disposed flag are not observed by any
claim and are omitted.  `running` models `_running` (true exactly when the
pty handle is live). -/
structure Agent where
  id : String
  running : Bool
  seq : Nat
  history : List Message
  middlewares : List Middleware
  written : List String

/-- A freshly constructed (and spawned) agent: the constructor registers
`config.middleware` one by one through `use`; `_seq` starts at 0 and
`history` empty. -/
def agentInit (id : String) (mws : List Middleware) : Agent :=
  { id := id
    running := true
    seq := 0
    history := []
    middlewares := buildChain mws
    written := [] }

/-- Embedding of `PtyAgent.write`: silently drops the data when the pty is absent or the
agent is not running; otherwise delivers it to the child. -/
def Agent.write (a : Agent) (data : String) : Agent :=
  if a.running then { a with written := a.written ++ [data] } else a

/-- Embedding of `PtyAgent.send`: synthesize an inbound message numbered `++_seq`, run it
through the inbound chain, then write the (possibly rewritten) raw content
and append the message to history.  The append is unconditional: it happens
whether or not every stage invoked `next`. -/
def Agent.send (a : Agent) (data : String) : Agent :=
  let seq2 := a.seq + 1
  let msg := createMessage data .inbound a.id seq2
  let result := runChain (applicableFor a.middlewares .inbound) msg
  let a2 := Agent.write { a with seq := seq2 } result.1.raw
  { a2 with history := a2.history ++ [result.1] }

/-- Embedding of `PtyAgent.sendLine`: `send` with a trailing newline ensured. -/
def Agent.sendLine (a : Agent) (data : String) : Agent :=
  a.send (formatLine data)

/-- Embedding of `PtyAgent.handleOutput`: each flushed chunk becomes one outbound message
numbered `++_seq`, run through the outbound chain and unconditionally
appended to history (then signalled). -/
def Agent.handleOutput (a : Agent) (data : String) : Agent :=
  let seq2 := a.seq + 1
  let msg := createMessage data .outbound a.id seq2
  let result := runChain (applicableFor a.middlewares .outbound) msg
  { a with seq := seq2, history := a.history ++ [result.1] }

/-- One serialized event on a session: a caller send, an output-buffer
flush, a child exit (which clears `_running`), or a (re)spawn. -/
inductive AgentOp
  | sendEv (data : String)
  | flushEv (data : String)
  | exitEv
  | spawnEv

/-- Apply one event to the agent state.  `spawn` no-ops when already
running and never resets `_seq` or `history`; `exit` only clears
`_running` (auto-restart re-enters via `spawnEv`). -/
def applyAgentOp (a : Agent) : AgentOp → Agent
  | .sendEv data => a.send data
  | .flushEv data => a.handleOutput data
  | .exitEv => { a with running := false }
  | .spawnEv => if a.running then a else { a with running := true }

/-- Apply a sequence of session events. -/
def applyAgentOps (a : Agent) (ops : List AgentOp) : Agent :=
  ops.foldl applyAgentOp a

/-- A middleware handler that respects the message identity contract of the
data model: rewriting only content, never the sequence number. -/
def seqPreserving (mw : Middleware) : Prop :=
  ∀ m : Message, ((mw.fn m).1).seq = m.seq

/-! ## agent.ts: waitFor listener bookkeeping -/

/-- The `message`-event listener table of one agent together with the
settlement state of the promises returned by `waitFor`.  `listeners` holds
the handlers currently registered on the emitter, in registration order;
`settled` records, per wait id, `some m` when the race resolved with
message `m` and `none` when it rejected with the Timeout error. -/
structure WaitState where
  listeners : List (Nat × Pattern)
  settled : List (Nat × Option Message)

/-- No pending waits, nothing settled. -/
def waitInit : WaitState :=
  { listeners := [], settled := [] }

/-- Look up the settlement of a wait id. -/
def settlementOf (s : WaitState) (wid : Nat) : Option (Option Message) :=
  (s.settled.find? (fun e => e.1 == wid)).map (·.2)

/-- Embedding of `PtyAgent.waitFor(pattern, timeout)`: registers one `message` handler
on the emitter. -/
def waitForStart (s : WaitState) (wid : Nat) (p : Pattern) : WaitState :=
  { s with listeners := s.listeners ++ [(wid, p)] }

/-- Delivery of one emitted message to every registered handler, in
registration order.  A handler whose pattern matches an outbound message
removes itself (`this.off`) and resolves its promise; the resolution is
recorded only when the race is not already settled.  Handlers that do not
match stay registered. -/
def deliverMessage (s : WaitState) (m : Message) : WaitState :=
  let fires := fun (e : Nat × Pattern) =>
    (m.direction == .outbound) && matchPattern m.text e.2
  { listeners := s.listeners.filter (fun e => !(fires e))
    settled := s.settled ++
      ((s.listeners.filter fires).filter
        (fun e => (settlementOf s e.1).isNone)).map (fun e => (e.1, some m)) }

/-- Expiry of the `withTimeout` timer of one wait: the race rejects with the
Timeout error when not already settled.  The `message` handler registered by
`waitFor` is not touched. -/
def fireWaitTimeout (s : WaitState) (wid : Nat) : WaitState :=
  if (settlementOf s wid).isSome then s
  else { s with settled := s.settled ++ [(wid, none)] }

/-! ## adapters.ts: adapter registry -/

/-- The part of the agent configuration that adapter detection reads. -/
structure AgentConfig where
  command : String
  args : List String
deriving DecidableEq, Repr

/-- Adapter from types.ts, restricted to the fields the registry uses:
`name` and the `detect` predicate. -/
structure Adapter where
  name : String
  detect : AgentConfig → Bool

/-- The generic fallback adapter: `detect: () => true`. -/
def genericAdapter : Adapter :=
  { name := "generic", detect := fun _ => true }

/-- The initial process-wide registry: just the fallback. -/
def registryInit : List Adapter :=
  [genericAdapter]

/-- Embedding of `registerAdapter`: remove the first adapter named "generic"
(findIndex + splice, a no-op when absent), push the new adapter, re-push
the generic fallback. -/
def registerAdapter (l : List Adapter) (a : Adapter) : List Adapter :=
  (l.eraseP (fun x => x.name == "generic") ++ [a]) ++ [genericAdapter]

/-- Embedding of `unregisterAdapter`: refuses to remove the fallback; otherwise removes
the first adapter with the given name (findIndex + splice), reporting
whether one was found. -/
def unregisterAdapter (l : List Adapter) (name : String) :
    List Adapter × Bool :=
  if name == "generic" then (l, false)
  else if (l.find? (fun a => a.name == name)).isSome then
    (l.eraseP (fun a => a.name == name), true)
  else (l, false)

/-- Embedding of `findAdapter`: first adapter in list order whose `detect` accepts the
configuration, defaulting to the generic fallback. -/
def findAdapter (l : List Adapter) (config : AgentConfig) : Adapter :=
  (l.find? (fun a => a.detect config)).getD genericAdapter

/-- A mutation of the process-wide registry. -/
inductive RegOp
  | reg (a : Adapter)
  | unreg (name : String)

/-- Apply one registry mutation. -/
def applyRegOp (l : List Adapter) : RegOp → List Adapter
  | .reg a => registerAdapter l a
  | .unreg name => (unregisterAdapter l name).1

/-- Apply a sequence of registry mutations to the initial registry. -/
def applyRegOps (ops : List RegOp) : List Adapter :=
  ops.foldl applyRegOp registryInit

/-! ## agent.ts: AgentPool -/

/-- Pool configuration (`PoolConfig` after the constructor fills the
defaults).  `validate` is the caller-supplied hook, embedded as a predicate
on the pooled agent's identity. -/
structure PoolConfig where
  maxAgents : Nat
  minIdle : Nat
  acquireTimeout : Nat
  idleTimeout : Nat
  validate : Nat → Bool

/-- One entry of the `_agents` map (`PooledAgent`).  `id` is the wrapped
agent's id (generated fresh per creation), `running` the wrapped agent's
running flag, and `historyLen` the length of the wrapped agent's history
(the part of the agent that `release` observes through `clear`). -/
structure PooledAgent where
  id : Nat
  running : Bool
  historyLen : Nat
  inUse : Bool
  lastUsed : Nat
  useCount : Nat
deriving DecidableEq, Repr

/-- The pool state: `agents` is the `_agents` map in insertion order,
`waitQueue` the pending acquires in arrival order (as waiter ids),
`nextId` the generator for fresh agent ids. -/
structure PoolState where
  agents : List PooledAgent
  waitQueue : List Nat
  destroyed : Bool
  nextId : Nat
deriving DecidableEq, Repr

/-- A freshly constructed pool. -/
def poolInit : PoolState :=
  { agents := [], waitQueue := [], destroyed := false, nextId := 0 }

/-- Number of available entries: idle and running (`AgentPool.available`). -/
def availableCount (agents : List PooledAgent) : Nat :=
  (agents.filter (fun e => !e.inUse && e.running)).length

/-- Lookup, mirroring `Map.get`, by agent id (first entry with the id). -/
def lookupAgent : List PooledAgent → Nat → Option PooledAgent
  | [], _ => none
  | e :: rest, id => if e.id = id then some e else lookupAgent rest id

/-- In-place mutation of the entry with the given id (the source mutates
the `PooledAgent` object held in the map, keeping its position). -/
def updateAgent : List PooledAgent → Nat → PooledAgent → List PooledAgent
  | [], _, _ => []
  | e :: rest, id, e2 =>
    if e.id = id then e2 :: rest else e :: updateAgent rest id e2

/-- The scan loop of `AgentPool.acquire`: walk the map in insertion order;
an idle running entry that validates is marked in use (`lastUsed` and
`useCount` updated) and returned; one that fails validation is destroyed
(deleted from the map) and the scan continues.  Returns the map after the
scan and the id of the acquired entry, if any. -/
def scanAcquire (validate : Nat → Bool) (now : Nat) :
    List PooledAgent → List PooledAgent × Option Nat
  | [] => ([], none)
  | e :: rest =>
    if !e.inUse && e.running then
      if validate e.id then
        ({ e with inUse := true, lastUsed := now, useCount := e.useCount + 1 }
          :: rest, some e.id)
      else scanAcquire validate now rest
    else
      let tail := scanAcquire validate now rest
      (e :: tail.1, tail.2)

/-- The entry created by `_createAgent` and immediately marked in use by
`acquire` (created with `useCount := 0`, then incremented). -/
def freshInUse (id : Nat) (now : Nat) : PooledAgent :=
  { id := id, running := true, historyLen := 0, inUse := true
    lastUsed := now, useCount := 1 }

/-- The entry created by `_createAgent` during `warmup` (left idle). -/
def freshIdle (id : Nat) (now : Nat) : PooledAgent :=
  { id := id, running := true, historyLen := 0, inUse := false
    lastUsed := now, useCount := 0 }

/-- Outcome of one `acquire` call. -/
inductive AcquireResult
  | acquired (id : Nat) (isNew : Bool)
  | queued
  | errDestroyed
deriving DecidableEq, Repr

/-- Embedding of `AgentPool.acquire` as one atomic step: fail when destroyed; otherwise
scan for an idle running entry that validates (destroying ones that do
not); otherwise create a new in-use entry when under `maxAgents`;
otherwise append the caller to the wait queue. -/
def acquirePool (cfg : PoolConfig) (s : PoolState) (now wid : Nat) :
    PoolState × AcquireResult :=
  if s.destroyed then (s, .errDestroyed)
  else
    let scanned := scanAcquire cfg.validate now s.agents
    match scanned.2 with
    | some id => ({ s with agents := scanned.1 }, .acquired id false)
    | none =>
      if scanned.1.length < cfg.maxAgents then
        ({ s with
            agents := scanned.1 ++ [freshInUse s.nextId now]
            nextId := s.nextId + 1 },
          .acquired s.nextId true)
      else
        ({ s with agents := scanned.1, waitQueue := s.waitQueue ++ [wid] },
          .queued)

/-- Expiry of the acquire timer of a queued waiter: the waiter is removed
from the queue and its acquire fails with the Timeout error; reports
whether the waiter was still queued. -/
def fireAcquireTimeout (s : PoolState) (wid : Nat) : PoolState × Bool :=
  if wid ∈ s.waitQueue then
    ({ s with waitQueue := s.waitQueue.erase wid }, true)
  else (s, false)

/-- Outcome of one `release` call: the NotInPool error, a silent return
(entry already idle), or success, recording the waiter served from the
queue, if any. -/
inductive ReleaseResult
  | errNotInPool
  | alreadyIdle
  | released (served : Option Nat)
deriving DecidableEq, Repr

/-- Embedding of `AgentPool.release` as one atomic step: throw for an unknown agent;
return silently when the entry is already idle; otherwise mark it idle
(`lastUsed` updated), clear the agent's history, and when a waiter is
queued and the agent still running, serve the oldest waiter with the same
entry (marking it in use again and incrementing `useCount`). -/
def releasePool (s : PoolState) (id : Nat) (now : Nat) :
    PoolState × ReleaseResult :=
  match lookupAgent s.agents id with
  | none => (s, .errNotInPool)
  | some e =>
    if !e.inUse then (s, .alreadyIdle)
    else
      let idleE := { e with inUse := false, lastUsed := now, historyLen := 0 }
      match s.waitQueue with
      | w :: ws =>
        if e.running then
          ({ s with
              agents := updateAgent s.agents id
                { idleE with inUse := true, useCount := e.useCount + 1 }
              waitQueue := ws },
            .released (some w))
        else
          ({ s with agents := updateAgent s.agents id idleE },
            .released none)
      | [] =>
        ({ s with agents := updateAgent s.agents id idleE }, .released none)

/-- Embedding of `AgentPool.warmup(count)`: create `min(target - available, maxAgents -
size)` idle entries (none when that quantity is not positive), where
`target` defaults to `minIdle`. -/
def warmupPool (cfg : PoolConfig) (s : PoolState) (count : Option Nat)
    (now : Nat) : PoolState :=
  let target : Int := (count.getD cfg.minIdle : Nat)
  let needed : Int :=
    min (target - (availableCount s.agents : Int))
      ((cfg.maxAgents : Int) - (s.agents.length : Int))
  let n := needed.toNat
  { s with
      agents := s.agents ++ (List.range n).map (fun i => freshIdle (s.nextId + i) now)
      nextId := s.nextId + n }

/-- The pool-side `exit` handler installed by `_createAgent`: the entry is
deleted from the map unconditionally, in-use or not. -/
def exitPool (s : PoolState) (id : Nat) : PoolState :=
  { s with agents := s.agents.eraseP (fun e => e.id == id) }

/-- One tick of `_startIdleCheck`: collect the idle entries whose idle time
exceeds `idleTimeout` while `available` (computed against the unmodified
map) exceeds `minIdle`, then destroy all collected entries. -/
def sweepPool (cfg : PoolConfig) (s : PoolState) (now : Nat) : PoolState :=
  if s.destroyed then s
  else
    let avail := availableCount s.agents
    let doomed := fun (e : PooledAgent) =>
      !e.inUse && decide (cfg.minIdle < avail) &&
        decide (cfg.idleTimeout < now - e.lastUsed)
    { s with agents := s.agents.filter (fun e => !(doomed e)) }

/-- Embedding of `AgentPool.destroy`: reject all queued waiters, dispose and delete all
entries, mark the pool destroyed. -/
def destroyPool (s : PoolState) : PoolState :=
  { agents := [], waitQueue := [], destroyed := true, nextId := s.nextId }

/-- One serialized pool event. -/
inductive PoolOp
  | acq (wid now : Nat)
  | rel (id now : Nat)
  | warm (count : Option Nat) (now : Nat)
  | exitEv (id : Nat)
  | sweep (now : Nat)
  | acquireTimeout (wid : Nat)
  | destroyEv

/-- Apply one pool event (discarding the per-call outcome). -/
def applyPoolOp (cfg : PoolConfig) (s : PoolState) : PoolOp → PoolState
  | .acq wid now => (acquirePool cfg s now wid).1
  | .rel id now => (releasePool s id now).1
  | .warm count now => warmupPool cfg s count now
  | .exitEv id => exitPool s id
  | .sweep now => sweepPool cfg s now
  | .acquireTimeout wid => (fireAcquireTimeout s wid).1
  | .destroyEv => destroyPool s

/-- Apply a sequence of pool events to the freshly constructed pool. -/
def applyPoolOps (cfg : PoolConfig) (ops : List PoolOp) : PoolState :=
  ops.foldl (applyPoolOp cfg) poolInit

/-! ## Concrete instances used by the evaluations and witnesses -/

/-- A stage that never invokes `next` (like the interceptor middleware with
a matching `block` pattern). -/
def blockerMw : Middleware :=
  { name := "blocker", direction := .both, priority := some 10,
    enabled := none, fn := fun m => (m, false) }

/-- A downstream stage that always proceeds. -/
def afterMw : Middleware :=
  { name := "after", direction := .both, priority := some 20,
    enabled := none, fn := fun m => (m, true) }

/-- The agent used to evaluate the short-circuit behaviour. -/
def c1Agent : Agent := agentInit "s1" [blockerMw, afterMw]

/-- A content-rewriting, sequence-preserving stage. -/
def bangMw : Middleware :=
  { name := "bang", direction := .both, priority := none,
    enabled := none, fn := fun m => ({ m with raw := m.raw ++ "!" }, true) }

/-- C6 witness middleware: inbound-only, late priority. -/
def wmA : Middleware :=
  { name := "A", direction := .inbound, priority := some 200,
    enabled := none, fn := fun m => (m, true) }

/-- C6 witness middleware: both directions, default priority. -/
def wmB : Middleware :=
  { name := "B", direction := .both, priority := none,
    enabled := none, fn := fun m => (m, true) }

/-- C6 witness middleware: disabled. -/
def wmC : Middleware :=
  { name := "C", direction := .both, priority := some 100,
    enabled := some false, fn := fun m => (m, true) }

/-- C6 witness middleware: both directions, priority tied with wmB. -/
def wmD : Middleware :=
  { name := "D", direction := .both, priority := some 100,
    enabled := none, fn := fun m => (m, true) }

/-- A stopped agent (child process no longer running). -/
def c9Agent : Agent := { agentInit "s9" [] with running := false }

/-- An in-pool entry that is already idle but still has history. -/
def c7IdleEntry : PooledAgent :=
  { id := 7, running := true, historyLen := 3, inUse := false,
    lastUsed := 0, useCount := 2 }

/-- A pool holding only `c7IdleEntry`, with one queued waiter. -/
def c7Pool : PoolState :=
  { agents := [c7IdleEntry], waitQueue := [9], destroyed := false, nextId := 8 }

/-- An in-use entry used by the C7 witness. -/
def c7BusyEntry : PooledAgent :=
  { id := 4, running := true, historyLen := 6, inUse := true,
    lastUsed := 0, useCount := 1 }

/-- A pool with one in-use entry and one queued waiter. -/
def c7BusyPool : PoolState :=
  { agents := [c7BusyEntry], waitQueue := [11, 12], destroyed := false,
    nextId := 5 }

/-- The entry as `release` leaves it when no waiter is served: idle,
`lastUsed` updated, history cleared. -/
def clearedIdleEntry (e : PooledAgent) (now : Nat) : PooledAgent :=
  { e with inUse := false, lastUsed := now, historyLen := 0 }

/-- The entry as `release` leaves it when it is immediately re-served to a
queued waiter: back in use with `useCount` incremented. -/
def reservedEntry (e : PooledAgent) (now : Nat) : PooledAgent :=
  { e with
    inUse := true
    lastUsed := now
    historyLen := 0
    useCount := e.useCount + 1 }

/-- Pool configuration for the idle-sweep evaluation: `minIdle := 2`. -/
def c8Cfg : PoolConfig :=
  { maxAgents := 5, minIdle := 2, acquireTimeout := 1000, idleTimeout := 10,
    validate := fun _ => true }

/-- Three idle running entries, all overdue at time 100. -/
def c8Pool : PoolState :=
  { agents :=
      [{ id := 0, running := true, historyLen := 0, inUse := false,
         lastUsed := 0, useCount := 1 },
       { id := 1, running := true, historyLen := 0, inUse := false,
         lastUsed := 0, useCount := 1 },
       { id := 2, running := true, historyLen := 0, inUse := false,
         lastUsed := 0, useCount := 1 }],
    waitQueue := [], destroyed := false, nextId := 3 }

/-- Pool configuration for the C3 witness: capacity 1, nothing validates. -/
def c3Cfg : PoolConfig :=
  { maxAgents := 1, minIdle := 0, acquireTimeout := 1000, idleTimeout := 50,
    validate := fun _ => true }

/-- A full pool (one in-use entry) for the C3 witness. -/
def c3FullPool : PoolState :=
  { agents :=
      [{ id := 0, running := true, historyLen := 0, inUse := true,
         lastUsed := 0, useCount := 1 }],
    waitQueue := [], destroyed := false, nextId := 1 }

/-- The pool used by the C10 witness: one in-use entry. -/
def c10Pool : PoolState :=
  { agents :=
      [{ id := 3, running := true, historyLen := 2, inUse := true,
         lastUsed := 7, useCount := 1 }],
    waitQueue := [], destroyed := false, nextId := 4 }

/-! ## Helper lemmas: middleware chain -/

theorem runChain_seq_eq (hs : List Middleware) (msg : Message)
    (h : ∀ mw ∈ hs, seqPreserving mw) :
    ((runChain hs msg).1).seq = msg.seq := by
  induction hs generalizing msg with
  | nil => rfl
  | cons mw rest ih =>
    simp only [runChain]
    split
    · exact (ih _ (fun m hm => h m (List.mem_cons_of_mem _ hm))).trans
        (h mw (List.mem_cons_self _ _) msg)
    · exact h mw (List.mem_cons_self _ _) msg

theorem runChain_names_all_proceed (hs : List Middleware) (msg : Message)
    (h : ∀ mw ∈ hs, ∀ m, (mw.fn m).2 = true) :
    (runChain hs msg).2 = hs.map (·.name) := by
  induction hs generalizing msg with
  | nil => rfl
  | cons mw rest ih =>
    simp only [runChain]
    rw [if_pos (h mw (List.mem_cons_self _ _) msg)]
    simpa using ih _ (fun m hm => h m (List.mem_cons_of_mem _ hm))

/-- Claim C1: in `PtyAgent.send` and `PtyAgent.handleOutput` a stage that
returns without invoking `next` does stop every later stage, but the
message is nevertheless appended to the session's history (and, for the
inbound path, still written to the child): `runMiddleware(...).then(...)`
resolves normally after a short-circuit, and the continuation pushes the
message unconditionally.  Evaluated here on a chain whose first stage
blocks: only "blocker" runs, yet history grows by one and the blocked data
reaches the pty. -/
theorem c1_short_circuit_eval :
    (runChain (applicableFor c1Agent.middlewares .inbound)
        (createMessage "secret" .inbound "s1" 1)).2 = ["blocker"]
    ∧ (c1Agent.send "secret").history.length = 1
    ∧ (c1Agent.send "secret").written = ["secret"]
    ∧ (c1Agent.handleOutput "uh-oh").history.length = 1 := by
  exact ⟨rfl, rfl, rfl, rfl⟩

/-- Claim C9: `send` on a session whose child is not running raises no
error: the message still receives the next sequence number, is run through
the inbound chain and appended to history, while `write` silently delivers
nothing; `sendLine` is `send` after `formatLine`. -/
theorem c9_send_while_stopped (a : Agent) (data : String)
    (h : a.running = false) :
    (a.send data).seq = a.seq + 1
    ∧ (a.send data).history = a.history ++
        [(runChain (applicableFor a.middlewares .inbound)
            (createMessage data .inbound a.id (a.seq + 1))).1]
    ∧ (a.send data).written = a.written
    ∧ a.sendLine data = a.send (formatLine data) := by
  refine ⟨?_, ?_, ?_, rfl⟩ <;> simp [Agent.send, Agent.write, h]

/-- Witness for C9 at a concrete stopped agent. -/
theorem c9_send_while_stopped_witness :
    (c9Agent.send "ping").seq = c9Agent.seq + 1
    ∧ (c9Agent.send "ping").history = c9Agent.history ++
        [(runChain (applicableFor c9Agent.middlewares .inbound)
            (createMessage "ping" .inbound c9Agent.id (c9Agent.seq + 1))).1]
    ∧ (c9Agent.send "ping").written = c9Agent.written
    ∧ c9Agent.sendLine "ping" = c9Agent.send (formatLine "ping") :=
  c9_send_while_stopped c9Agent "ping" rfl

/-! ## Helper lemmas: sequence numbers (C2) -/

theorem applyAgentOp_middlewares (a : Agent) (op : AgentOp) :
    (applyAgentOp a op).middlewares = a.middlewares := by
  cases op with
  | sendEv data => simp only [applyAgentOp, Agent.send, Agent.write]; split <;> rfl
  | flushEv data => rfl
  | exitEv => rfl
  | spawnEv => simp only [applyAgentOp]; split <;> rfl

theorem applyAgentOp_seqInv (a : Agent) (op : AgentOp)
    (hmw : ∀ mw ∈ a.middlewares, seqPreserving mw)
    (h : a.history.map (·.seq) = List.range' 1 a.seq) :
    (applyAgentOp a op).history.map (·.seq) =
      List.range' 1 (applyAgentOp a op).seq := by
  have hchain : ∀ (d : MessageDirection) (m : Message),
      ((runChain (applicableFor a.middlewares d) m).1).seq = m.seq := by
    intro d m
    exact runChain_seq_eq _ _
      (fun mw hm => hmw mw (List.mem_of_mem_filter hm))
  cases op with
  | sendEv data =>
    simp only [applyAgentOp, Agent.send, Agent.write]
    split
    · simp only [List.map_append, h, hchain, createMessage, List.map_cons,
        List.map_nil, List.range'_1_concat, Nat.add_comm 1 a.seq]
    · simp only [List.map_append, h, hchain, createMessage, List.map_cons,
        List.map_nil, List.range'_1_concat, Nat.add_comm 1 a.seq]
  | flushEv data =>
    simp only [applyAgentOp, Agent.handleOutput]
    simp only [List.map_append, h, hchain, createMessage, List.map_cons,
      List.map_nil, List.range'_1_concat, Nat.add_comm 1 a.seq]
  | exitEv => exact h
  | spawnEv =>
    simp only [applyAgentOp]
    split
    · exact h
    · exact h

theorem applyAgentOp_history_extends (a : Agent) (op : AgentOp) :
    ∃ ext, (applyAgentOp a op).history = a.history ++ ext := by
  cases op with
  | sendEv data =>
    refine ⟨[(runChain (applicableFor a.middlewares .inbound)
        (createMessage data .inbound a.id (a.seq + 1))).1], ?_⟩
    simp only [applyAgentOp, Agent.send, Agent.write]
    split <;> rfl
  | flushEv data => exact ⟨_, rfl⟩
  | exitEv => exact ⟨[], (List.append_nil _).symm⟩
  | spawnEv =>
    simp only [applyAgentOp]
    split
    · exact ⟨[], (List.append_nil _).symm⟩
    · exact ⟨[], (List.append_nil _).symm⟩

theorem applyAgentOps_seqInv (ops : List AgentOp) (a : Agent)
    (hmw : ∀ mw ∈ a.middlewares, seqPreserving mw)
    (h : a.history.map (·.seq) = List.range' 1 a.seq) :
    (applyAgentOps a ops).history.map (·.seq) =
      List.range' 1 (applyAgentOps a ops).seq := by
  induction ops generalizing a with
  | nil => exact h
  | cons op rest ih =>
    exact ih (applyAgentOp a op)
      (by rw [applyAgentOp_middlewares]; exact hmw)
      (applyAgentOp_seqInv a op hmw h)

theorem applyAgentOps_history_extends (ops : List AgentOp) (a : Agent) :
    ∃ ext, (applyAgentOps a ops).history = a.history ++ ext := by
  induction ops generalizing a with
  | nil => exact ⟨[], (List.append_nil _).symm⟩
  | cons op rest ih =>
    obtain ⟨e1, h1⟩ := applyAgentOp_history_extends a op
    obtain ⟨e2, h2⟩ := ih (applyAgentOp a op)
    exact ⟨e1 ++ e2, by rw [applyAgentOps] at h2 ⊢; simp [h2, h1]⟩

/-- Claim C2: over any interleaving of sends, output flushes, exits and
(re)spawns — middleware rewriting content but (per the data model) not the
message identity — the sequence numbers of the messages in history are
exactly 1, 2, ..., `_seq`: strictly increasing, gapless, duplicate-free.
Moreover history only ever grows (messages are appended, never replaced),
so with the closed form a sequence number is never reused later in the
session's lifetime, including across restarts (`exitEv`/`spawnEv` never
reset `_seq`). -/
theorem c2_history_sequence (id : String) (mws : List Middleware)
    (ops : List AgentOp) (hmw : ∀ mw ∈ mws, seqPreserving mw) :
    (applyAgentOps (agentInit id mws) ops).history.map (·.seq) =
      List.range' 1 (applyAgentOps (agentInit id mws) ops).seq
    ∧ ((applyAgentOps (agentInit id mws) ops).history.map (·.seq)).Pairwise (· < ·)
    ∧ (∀ more, ∃ ext,
        (applyAgentOps (agentInit id mws) (ops ++ more)).history =
          (applyAgentOps (agentInit id mws) ops).history ++ ext) := by
  have hmw' : ∀ mw ∈ (agentInit id mws).middlewares, seqPreserving mw := by
    intro mw hm
    have : (buildChain mws).Sublist (buildChain mws) := List.Sublist.refl _
    exact hmw mw (by
      -- membership in the chain built by repeated `use` implies membership
      -- in the registration list
      have : ∀ (l : List Middleware) (acc : List Middleware),
          mw ∈ l.foldl use acc → mw ∈ acc ∨ mw ∈ l := by
        intro l
        induction l with
        | nil => intro acc h; exact Or.inl h
        | cons x rest ih =>
          intro acc h
          rcases ih _ h with h1 | h1
          · -- mw ∈ use acc x
            have : ∀ (ac : List Middleware), mw ∈ use ac x → mw = x ∨ mw ∈ ac := by
              intro ac
              induction ac with
              | nil => intro hh; simpa [use] using hh
              | cons b bs ihb =>
                intro hh
                simp only [use] at hh
                split at hh
                · simpa using hh
                · rcases List.mem_cons.1 hh with h2 | h2
                  · exact Or.inr (List.mem_cons.2 (Or.inl h2))
                  · rcases ihb h2 with h3 | h3
                    · exact Or.inl h3
                    · exact Or.inr (List.mem_cons.2 (Or.inr h3))
            rcases this _ h1 with h2 | h2
            · exact Or.inr (List.mem_cons.2 (Or.inl h2))
            · exact Or.inl h2
          · exact Or.inr (List.mem_cons.2 (Or.inr h1))
      have h0 := this mws [] hm
      simpa using h0)
  have hinv : (agentInit id mws).history.map (·.seq) =
      List.range' 1 (agentInit id mws).seq := rfl
  have hmain := applyAgentOps_seqInv ops (agentInit id mws) hmw' hinv
  refine ⟨hmain, ?_, ?_⟩
  · rw [hmain]
    exact List.pairwise_lt_range' 1 _ 1 (by simp)
  · intro more
    rw [applyAgentOps, List.foldl_append]
    exact applyAgentOps_history_extends more _

/-- Witness for C2: a content-rewriting chain over a send, a flush, an
exit/respawn cycle and another send. -/
theorem c2_history_sequence_witness :
    (applyAgentOps (agentInit "w2" [bangMw])
        [.sendEv "a", .flushEv "b", .exitEv, .spawnEv, .sendEv "c"]).history.map (·.seq) =
      List.range' 1 (applyAgentOps (agentInit "w2" [bangMw])
        [.sendEv "a", .flushEv "b", .exitEv, .spawnEv, .sendEv "c"]).seq
    ∧ ((applyAgentOps (agentInit "w2" [bangMw])
        [.sendEv "a", .flushEv "b", .exitEv, .spawnEv, .sendEv "c"]).history.map (·.seq)).Pairwise (· < ·)
    ∧ (∀ more, ∃ ext,
        (applyAgentOps (agentInit "w2" [bangMw])
          ([.sendEv "a", .flushEv "b", .exitEv, .spawnEv, .sendEv "c"] ++ more)).history =
          (applyAgentOps (agentInit "w2" [bangMw])
            [.sendEv "a", .flushEv "b", .exitEv, .spawnEv, .sendEv "c"]).history ++ ext) :=
  c2_history_sequence "w2" [bangMw]
    [.sendEv "a", .flushEv "b", .exitEv, .spawnEv, .sendEv "c"]
    (by
      intro mw hm m
      have h1 : mw = bangMw := by simpa using hm
      subst h1
      rfl)

/-! ## Helper lemmas: chain ordering (C6) -/

theorem use_perm (l : List Middleware) (mw : Middleware) :
    (use l mw).Perm (mw :: l) := by
  induction l with
  | nil => exact List.Perm.refl _
  | cons m rest ih =>
    simp only [use]
    split
    · exact List.Perm.refl _
    · exact (List.Perm.cons m ih).trans (List.Perm.swap _ _ _)

theorem use_pairwise (l : List Middleware) (mw : Middleware)
    (h : l.Pairwise (fun a b => priorityOf a ≤ priorityOf b)) :
    (use l mw).Pairwise (fun a b => priorityOf a ≤ priorityOf b) := by
  induction l with
  | nil => simp [use]
  | cons m rest ih =>
    rcases List.pairwise_cons.1 h with ⟨hm, hrest⟩
    simp only [use]
    split
    · rename_i hlt
      refine List.pairwise_cons.2 ⟨?_, h⟩
      intro b hb
      rcases List.mem_cons.1 hb with h1 | h1
      · subst h1; exact le_of_lt hlt
      · exact le_trans (le_of_lt hlt) (hm b h1)
    · rename_i hge
      refine List.pairwise_cons.2 ⟨?_, ih hrest⟩
      intro b hb
      have hb' := ((use_perm rest mw).mem_iff).1 hb
      rcases List.mem_cons.1 hb' with h1 | h1
      · subst h1; exact le_of_not_lt hge
      · exact hm b h1

theorem foldl_use_pairwise (l acc : List Middleware)
    (h : acc.Pairwise (fun a b => priorityOf a ≤ priorityOf b)) :
    (l.foldl use acc).Pairwise (fun a b => priorityOf a ≤ priorityOf b) := by
  induction l generalizing acc with
  | nil => exact h
  | cons mw rest ih => exact ih _ (use_pairwise _ _ h)

theorem buildChain_pairwise (l : List Middleware) :
    (buildChain l).Pairwise (fun a b => priorityOf a ≤ priorityOf b) :=
  foldl_use_pairwise l [] (List.Pairwise.nil)

theorem foldl_use_perm (l acc : List Middleware) :
    (l.foldl use acc).Perm (acc ++ l) := by
  induction l generalizing acc with
  | nil => simp
  | cons mw rest ih =>
    have h1 : ((mw :: rest).foldl use acc) = rest.foldl use (use acc mw) := rfl
    rw [h1]
    exact (ih _).trans
      (((use_perm acc mw).append_right rest).trans List.perm_middle.symm)

theorem buildChain_perm (l : List Middleware) : (buildChain l).Perm l := by
  simpa using foldl_use_perm l []

theorem filter_use (l : List Middleware) (mw : Middleware) (p : Int)
    (hs : l.Pairwise (fun a b => priorityOf a ≤ priorityOf b)) :
    (use l mw).filter (fun m => priorityOf m == p) =
      l.filter (fun m => priorityOf m == p) ++
        (if priorityOf mw == p then [mw] else []) := by
  induction l with
  | nil =>
    show List.filter _ [mw] = _
    rw [List.filter_cons, List.filter_nil, List.nil_append]
  | cons m rest ih =>
    rcases List.pairwise_cons.1 hs with ⟨hm, hrest⟩
    simp only [use]
    split
    · rename_i hlt
      by_cases hp : priorityOf mw = p
      · have hrest0 : (m :: rest).filter (fun x => priorityOf x == p) = [] := by
          refine List.filter_eq_nil_iff.2 ?_
          intro b hb
          have hgt : priorityOf mw < priorityOf b := by
            rcases List.mem_cons.1 hb with h1 | h1
            · subst h1; exact hlt
            · exact lt_of_lt_of_le hlt (hm b h1)
          simp only [beq_iff_eq]
          omega
        rw [List.filter_cons_of_pos (by simpa using hp), hrest0,
          if_pos (by simpa using hp), List.nil_append]
      · rw [List.filter_cons_of_neg (by simpa using hp), if_neg (by simpa using hp),
          List.append_nil]
    · rename_i hge
      by_cases hmp : priorityOf m = p
      · rw [List.filter_cons_of_pos (by simpa using hmp),
          List.filter_cons_of_pos (by simpa using hmp), ih hrest, List.cons_append]
      · rw [List.filter_cons_of_neg (by simpa using hmp),
          List.filter_cons_of_neg (by simpa using hmp), ih hrest]

theorem foldl_use_filter (l acc : List Middleware) (p : Int)
    (h : acc.Pairwise (fun a b => priorityOf a ≤ priorityOf b)) :
    (l.foldl use acc).filter (fun m => priorityOf m == p) =
      acc.filter (fun m => priorityOf m == p) ++
        l.filter (fun m => priorityOf m == p) := by
  induction l generalizing acc with
  | nil => simp
  | cons mw rest ih =>
    have step := ih (use acc mw) (use_pairwise _ _ h)
    calc ((mw :: rest).foldl use acc).filter (fun m => priorityOf m == p)
        = (use acc mw).filter (fun m => priorityOf m == p) ++
            rest.filter (fun m => priorityOf m == p) := step
      _ = (acc.filter (fun m => priorityOf m == p) ++
            (if priorityOf mw == p then [mw] else [])) ++
            rest.filter (fun m => priorityOf m == p) := by
            rw [filter_use acc mw p h]
      _ = acc.filter (fun m => priorityOf m == p) ++
            (mw :: rest).filter (fun m => priorityOf m == p) := by
            by_cases hp : priorityOf mw = p
            · rw [if_pos (by simpa using hp),
                List.filter_cons_of_pos (by simpa using hp)]
              simp
            · rw [if_neg (by simpa using hp),
                List.filter_cons_of_neg (by simpa using hp)]
              simp

theorem buildChain_filter_priority (l : List Middleware) (p : Int) :
    (buildChain l).filter (fun m => priorityOf m == p) =
      l.filter (fun m => priorityOf m == p) := by
  simpa using foldl_use_filter l [] p List.Pairwise.nil

/-- Claim C6: running a message of direction `d` through a session's chain
executes exactly the registered middleware that are enabled and whose
direction matches (`both` always matches), in chain order; the chain built
by `use` is sorted by ascending effective priority (default 100), and for
every priority value the middleware holding it appear in the chain in
registration order (ties preserve insertion order).  The applicable
sub-chain is therefore also priority-sorted and keeps registration order
within equal priorities. -/
theorem c6_middleware_order (l : List Middleware) (d : MessageDirection)
    (msg : Message)
    (hall : ∀ mw ∈ applicableFor (buildChain l) d, ∀ m, (mw.fn m).2 = true) :
    (runChain (applicableFor (buildChain l) d) msg).2 =
      (applicableFor (buildChain l) d).map (·.name)
    ∧ (applicableFor (buildChain l) d).Perm (applicableFor l d)
    ∧ (applicableFor (buildChain l) d).Pairwise
        (fun a b => priorityOf a ≤ priorityOf b)
    ∧ (∀ p : Int, (buildChain l).filter (fun m => priorityOf m == p) =
        l.filter (fun m => priorityOf m == p)) := by
  refine ⟨runChain_names_all_proceed _ _ hall, ?_, ?_, ?_⟩
  · exact (buildChain_perm l).filter _
  · exact (buildChain_pairwise l).filter _
  · exact buildChain_filter_priority l

/-- Witness for C6: four registered middleware (two tied at priority 100,
one disabled, one inbound-only at 200) on an inbound message. -/
theorem c6_middleware_order_witness :
    (runChain (applicableFor (buildChain [wmA, wmB, wmC, wmD]) .inbound)
        (createMessage "hi" .inbound "w6" 1)).2 =
      (applicableFor (buildChain [wmA, wmB, wmC, wmD]) .inbound).map (·.name)
    ∧ (applicableFor (buildChain [wmA, wmB, wmC, wmD]) .inbound).Perm
        (applicableFor [wmA, wmB, wmC, wmD] .inbound)
    ∧ (applicableFor (buildChain [wmA, wmB, wmC, wmD]) .inbound).Pairwise
        (fun a b => priorityOf a ≤ priorityOf b)
    ∧ (∀ p : Int,
        (buildChain [wmA, wmB, wmC, wmD]).filter (fun m => priorityOf m == p) =
          [wmA, wmB, wmC, wmD].filter (fun m => priorityOf m == p)) :=
  c6_middleware_order [wmA, wmB, wmC, wmD] .inbound
    (createMessage "hi" .inbound "w6" 1)
    (by
      intro mw hm m
      have hl : applicableFor (buildChain [wmA, wmB, wmC, wmD]) .inbound =
          [wmB, wmD, wmA] := rfl
      rw [hl] at hm
      rcases List.mem_cons.1 hm with h1 | h1
      · subst h1; rfl
      rcases List.mem_cons.1 h1 with h2 | h2
      · subst h2; rfl
      rcases List.mem_cons.1 h2 with h3 | h3
      · subst h3; rfl
      · simp at h3)

/-! ## C4: waitFor listener bookkeeping -/

/-- Claim C4: the `message` handler registered by `waitFor` removes itself
only inside its own match branch; the `withTimeout` race rejects with the
Timeout error without detaching it.  Evaluated: after a wait times out with
no matching output, the promise is settled with the Timeout error yet the
listener is still registered, and a second identical `waitFor` leaves two
registered listeners — listeners do accumulate across timed-out calls.
By contrast a wait that matches a delivered outbound message does detach
its handler. -/
theorem c4_waitFor_listener_leak :
    (fireWaitTimeout (waitForStart waitInit 0 (.lit "ready")) 0).settled =
      [(0, none)]
    ∧ (fireWaitTimeout (waitForStart waitInit 0 (.lit "ready")) 0).listeners.length = 1
    ∧ (waitForStart (fireWaitTimeout (waitForStart waitInit 0 (.lit "ready")) 0)
        1 (.lit "ready")).listeners.length = 2
    ∧ (deliverMessage (waitForStart waitInit 0 (.lit "ready"))
        (createMessage "ready" .outbound "s4" 1)).listeners.length = 0 :=
  ⟨rfl, rfl, rfl, rfl⟩

/-! ## Helper lemmas: adapter registry (C5) -/

theorem eraseP_append_singleton {α : Type} (p : α → Bool) (x : α)
    (hx : p x = false) :
    ∀ l : List α, (l ++ [x]).eraseP p = l.eraseP p ++ [x] := by
  intro l
  induction l with
  | nil => simp [List.eraseP, hx]
  | cons a rest ih =>
    by_cases ha : p a = true
    · simp [List.eraseP_cons, ha]
    · simp only [List.cons_append, List.eraseP_cons,
        Bool.eq_false_iff.2 ha, ih]
      simp

theorem applyRegOps_fallback_last (ops : List RegOp) :
    ∃ front, applyRegOps ops = front ++ [genericAdapter] := by
  have main : ∀ (ops' : List RegOp) (l : List Adapter),
      (∃ f, l = f ++ [genericAdapter]) →
      ∃ f, ops'.foldl applyRegOp l = f ++ [genericAdapter] := by
    intro ops'
    induction ops' with
    | nil => intro l h; exact h
    | cons op rest ih =>
      intro l h
      refine ih _ ?_
      obtain ⟨f, hf⟩ := h
      cases op with
      | reg a => exact ⟨_, rfl⟩
      | unreg name =>
        simp only [applyRegOp, unregisterAdapter]
        by_cases hn : (name == "generic") = true
        · rw [if_pos hn]; exact ⟨f, hf⟩
        · rw [if_neg hn]
          by_cases hfind : ((l.find? (fun a => a.name == name)).isSome) = true
          · rw [if_pos hfind]
            subst hf
            refine ⟨f.eraseP (fun a => a.name == name), ?_⟩
            exact eraseP_append_singleton _ _ (by
              show (genericAdapter.name == name) = false
              simp only [genericAdapter]
              simp only [beq_eq_false_iff_ne, ne_eq]
              intro hcon
              exact hn (by simp [hcon.symm])) f
          · rw [if_neg hfind]; exact ⟨f, hf⟩
  exact main ops [genericAdapter] ⟨[], rfl⟩

theorem find?_first_characterization {α : Type} (p : α → Bool) :
    ∀ (l : List α) (a : α), l.find? p = some a →
      ∃ i, ∃ h : i < l.length, l.get ⟨i, h⟩ = a ∧ p a = true ∧
        ∀ j (hj : j < i), p (l.get ⟨j, hj.trans h⟩) = false := by
  intro l
  induction l with
  | nil => intro a h; simp [List.find?] at h
  | cons b rest ih =>
    intro a h
    by_cases hb : p b = true
    · rw [List.find?_cons_of_pos _ hb] at h
      cases h
      exact ⟨0, by simp, rfl, hb, fun j hj => absurd hj (Nat.not_lt_zero j)⟩
    · rw [List.find?_cons_of_neg _ (by simpa using hb)] at h
      obtain ⟨i, hi, hget, hpa, hprev⟩ := ih a h
      refine ⟨i + 1, by simpa using Nat.succ_lt_succ hi, by simpa using hget,
        hpa, ?_⟩
      intro j hj
      cases j with
      | zero => simpa using hb
      | succ k =>
        have hk : k < i := Nat.lt_of_succ_lt_succ hj
        simpa using hprev k hk

/-- Claim C5: over every sequence of register/unregister operations the
registry keeps the generic fallback (which detects every configuration) as
its last entry; `registerAdapter` removes the fallback, appends the new
adapter, then re-appends the fallback; unregistering "generic" is refused
(registry unchanged, result false); and `findAdapter` returns the first
adapter in list order whose `detect` accepts the configuration — which
always exists, since the trailing fallback accepts everything. -/
theorem c5_adapter_registry (ops : List RegOp) (config : AgentConfig) :
    (∃ front, applyRegOps ops = front ++ [genericAdapter])
    ∧ (∀ a, registerAdapter (applyRegOps ops) a =
        ((applyRegOps ops).eraseP (fun x => x.name == "generic") ++ [a]) ++
          [genericAdapter])
    ∧ unregisterAdapter (applyRegOps ops) "generic" = (applyRegOps ops, false)
    ∧ (∃ i, ∃ h : i < (applyRegOps ops).length,
        findAdapter (applyRegOps ops) config = (applyRegOps ops).get ⟨i, h⟩
        ∧ ((applyRegOps ops).get ⟨i, h⟩).detect config = true
        ∧ ∀ j (hj : j < i),
            ((applyRegOps ops).get ⟨j, hj.trans h⟩).detect config = false) := by
  obtain ⟨front, hfront⟩ := applyRegOps_fallback_last ops
  refine ⟨⟨front, hfront⟩, fun a => rfl, rfl, ?_⟩
  have hmem : genericAdapter ∈ applyRegOps ops := by
    rw [hfront]; exact List.mem_append_right _ (List.mem_singleton.2 rfl)
  have hsome : ((applyRegOps ops).find? (fun a => a.detect config)).isSome := by
    rw [List.find?_isSome]
    exact ⟨genericAdapter, hmem, rfl⟩
  obtain ⟨found, hfound⟩ := Option.isSome_iff_exists.1 hsome
  obtain ⟨i, hi, hget, hpa, hprev⟩ :=
    find?_first_characterization _ (applyRegOps ops) found hfound
  refine ⟨i, hi, ?_, by rw [hget]; exact hpa, hprev⟩
  rw [findAdapter, hfound, Option.getD_some, hget]

/-- Witness for C5: one custom adapter registered then one unregistered,
probed with a configuration the custom adapter detects. -/
theorem c5_adapter_registry_witness :
    (∃ front, applyRegOps
        [.reg { name := "foo", detect := fun c => c.command == "foo" },
         .unreg "bar"] = front ++ [genericAdapter])
    ∧ (∀ a, registerAdapter (applyRegOps
        [.reg { name := "foo", detect := fun c => c.command == "foo" },
         .unreg "bar"]) a =
        ((applyRegOps
            [.reg { name := "foo", detect := fun c => c.command == "foo" },
             .unreg "bar"]).eraseP (fun x => x.name == "generic") ++ [a]) ++
          [genericAdapter])
    ∧ unregisterAdapter (applyRegOps
        [.reg { name := "foo", detect := fun c => c.command == "foo" },
         .unreg "bar"]) "generic" =
        (applyRegOps
          [.reg { name := "foo", detect := fun c => c.command == "foo" },
           .unreg "bar"], false)
    ∧ (∃ i, ∃ h : i < (applyRegOps
          [.reg { name := "foo", detect := fun c => c.command == "foo" },
           .unreg "bar"]).length,
        findAdapter (applyRegOps
            [.reg { name := "foo", detect := fun c => c.command == "foo" },
             .unreg "bar"]) { command := "foo", args := [] } =
          (applyRegOps
            [.reg { name := "foo", detect := fun c => c.command == "foo" },
             .unreg "bar"]).get ⟨i, h⟩
        ∧ ((applyRegOps
            [.reg { name := "foo", detect := fun c => c.command == "foo" },
             .unreg "bar"]).get ⟨i, h⟩).detect { command := "foo", args := [] } = true
        ∧ ∀ j (hj : j < i),
            ((applyRegOps
              [.reg { name := "foo", detect := fun c => c.command == "foo" },
               .unreg "bar"]).get ⟨j, hj.trans h⟩).detect
              { command := "foo", args := [] } = false) :=
  c5_adapter_registry
    [.reg { name := "foo", detect := fun c => c.command == "foo" }, .unreg "bar"]
    { command := "foo", args := [] }

/-! ## Helper lemmas: pool (C3, C7, C10) -/

theorem scanAcquire_length_le (v : Nat → Bool) (now : Nat) :
    ∀ l : List PooledAgent, ((scanAcquire v now l).1).length ≤ l.length := by
  intro l
  induction l with
  | nil => simp [scanAcquire]
  | cons e rest ih =>
    simp only [scanAcquire]
    split
    · split
      · simp
      · exact Nat.le_trans ih (Nat.le_succ _)
    · simpa using Nat.succ_le_succ ih

theorem scanAcquire_none_invalid (v : Nat → Bool) (now : Nat) :
    ∀ l : List PooledAgent, (scanAcquire v now l).2 = none →
      ∀ e ∈ l, e.inUse = false → e.running = true → v e.id = false := by
  intro l
  induction l with
  | nil => intro _ e he; simp at he
  | cons x rest ih =>
    intro hnone e he hinUse hrun
    simp only [scanAcquire] at hnone
    rcases List.mem_cons.1 he with h1 | h1
    · subst h1
      by_cases hidle : (!e.inUse && e.running) = true
      · rw [if_pos hidle] at hnone
        by_cases hv : v e.id = true
        · rw [if_pos hv] at hnone; simp at hnone
        · simpa using hv
      · rw [hinUse, hrun] at hidle; simp at hidle
    · by_cases hidle : (!x.inUse && x.running) = true
      · rw [if_pos hidle] at hnone
        by_cases hv : v x.id = true
        · rw [if_pos hv] at hnone; simp at hnone
        · rw [if_neg hv] at hnone
          exact ih hnone e h1 hinUse hrun
      · rw [if_neg hidle] at hnone
        exact ih (by simpa using hnone) e h1 hinUse hrun

theorem updateAgent_length :
    ∀ (l : List PooledAgent) (id : Nat) (e : PooledAgent),
      (updateAgent l id e).length = l.length := by
  intro l
  induction l with
  | nil => intro id e; rfl
  | cons x rest ih =>
    intro id e
    simp only [updateAgent]
    split
    · rfl
    · simpa using ih id e

theorem releasePool_length (s : PoolState) (id now : Nat) :
    ((releasePool s id now).1).agents.length = s.agents.length := by
  simp only [releasePool]
  split
  · rfl
  · split
    · rfl
    · split
      · split
        · simpa using updateAgent_length ..
        · simpa using updateAgent_length ..
      · simpa using updateAgent_length ..

theorem applyPoolOp_capacity (cfg : PoolConfig) (s : PoolState) (op : PoolOp)
    (h : s.agents.length ≤ cfg.maxAgents) :
    (applyPoolOp cfg s op).agents.length ≤ cfg.maxAgents := by
  cases op with
  | acq wid now =>
    simp only [applyPoolOp, acquirePool]
    split
    · exact h
    · split
      · exact Nat.le_trans (scanAcquire_length_le ..) h
      · split
        · rename_i hlt
          simpa using hlt
        · exact Nat.le_trans (scanAcquire_length_le ..) h
  | rel id now => rw [applyPoolOp, releasePool_length]; exact h
  | warm count now =>
    simp only [applyPoolOp, warmupPool, List.length_append, List.length_map,
      List.length_range]
    have hmin : min ((((count.getD cfg.minIdle) : Nat) : Int) -
          (availableCount s.agents : Int))
        ((cfg.maxAgents : Int) - (s.agents.length : Int)) ≤
        (cfg.maxAgents : Int) - (s.agents.length : Int) := min_le_right _ _
    omega
  | exitEv id =>
    exact Nat.le_trans (List.Sublist.length_le (List.eraseP_sublist _)) h
  | sweep now =>
    simp only [applyPoolOp, sweepPool]
    split
    · exact h
    · exact Nat.le_trans (List.Sublist.length_le (List.filter_sublist _)) h
  | acquireTimeout wid =>
    simp only [applyPoolOp, fireAcquireTimeout]
    split
    · exact h
    · exact h
  | destroyEv => simp [applyPoolOp, destroyPool]

theorem applyPoolOps_capacity (cfg : PoolConfig) (ops : List PoolOp) :
    (applyPoolOps cfg ops).agents.length ≤ cfg.maxAgents := by
  have main : ∀ (ops' : List PoolOp) (s : PoolState),
      s.agents.length ≤ cfg.maxAgents →
      (ops'.foldl (applyPoolOp cfg) s).agents.length ≤ cfg.maxAgents := by
    intro ops'
    induction ops' with
    | nil => intro s h; exact h
    | cons op rest ih =>
      intro s h
      exact ih _ (applyPoolOp_capacity cfg s op h)
  exact main ops poolInit (Nat.zero_le _)

/-- Claim C3: (1) over every sequence of pool events the number of entries
never exceeds `maxAgents`; (2) `acquire` creates a new in-use entry exactly
when no idle running entry passed validation (every such entry failed
the `validate` hook) and the pool is below capacity after the scan, the
fresh entry being appended in-use with `useCount` 1; (3) otherwise the
caller is appended at the tail of the wait queue (FIFO); and (4) a queued
waiter whose acquire timer expires is removed from the queue and its
acquire fails with the Timeout error. -/
theorem c3_pool_capacity (cfg : PoolConfig) (ops : List PoolOp)
    (s : PoolState) (now wid : Nat) :
    (applyPoolOps cfg ops).agents.length ≤ cfg.maxAgents
    ∧ (∀ nid, (acquirePool cfg s now wid).2 = .acquired nid true →
        (∀ e ∈ s.agents, e.inUse = false → e.running = true →
          cfg.validate e.id = false)
        ∧ ((scanAcquire cfg.validate now s.agents).1).length < cfg.maxAgents
        ∧ nid = s.nextId
        ∧ (acquirePool cfg s now wid).1.agents =
            (scanAcquire cfg.validate now s.agents).1 ++
              [freshInUse s.nextId now])
    ∧ ((acquirePool cfg s now wid).2 = .queued →
        (acquirePool cfg s now wid).1.waitQueue = s.waitQueue ++ [wid])
    ∧ (wid ∈ s.waitQueue →
        fireAcquireTimeout s wid =
          ({ s with waitQueue := s.waitQueue.erase wid }, true)) := by
  refine ⟨applyPoolOps_capacity cfg ops, ?_, ?_, ?_⟩
  · intro nid hacq
    simp only [acquirePool] at hacq ⊢
    split at hacq
    · simp at hacq
    · split at hacq
      · simp at hacq
      · rename_i hnone
        split at hacq
        · rename_i hlt
          simp only [AcquireResult.acquired.injEq] at hacq
          refine ⟨scanAcquire_none_invalid _ _ _ hnone, hlt, hacq.1.symm, ?_⟩
          rw [if_pos hlt, if_neg (by assumption)]
        · simp at hacq
  · intro hq
    simp only [acquirePool] at hq ⊢
    split at hq
    · simp at hq
    · split at hq
      · simp at hq
      · split at hq
        · simp at hq
        · rw [if_neg (by assumption), if_neg (by assumption)]
  · intro hmem
    simp only [fireAcquireTimeout, if_pos hmem]

/-- Witness for C3: a full single-slot pool queues the caller; the queued
waiter then times out. -/
theorem c3_pool_capacity_witness :
    (applyPoolOps c3Cfg [.acq 0 1, .acq 1 2]).agents.length ≤ c3Cfg.maxAgents
    ∧ (acquirePool c3Cfg c3FullPool 5 42).2 = .queued
    ∧ (acquirePool c3Cfg c3FullPool 5 42).1.waitQueue =
        c3FullPool.waitQueue ++ [42]
    ∧ fireAcquireTimeout (acquirePool c3Cfg c3FullPool 5 42).1 42 =
        ({ (acquirePool c3Cfg c3FullPool 5 42).1 with
            waitQueue := ((acquirePool c3Cfg c3FullPool 5 42).1.waitQueue).erase 42 },
          true) := by
  have h := c3_pool_capacity c3Cfg [.acq 0 1, .acq 1 2] c3FullPool 5 42
  have hq : (acquirePool c3Cfg c3FullPool 5 42).2 = .queued := rfl
  refine ⟨h.1, hq, h.2.2.1 hq, ?_⟩
  have h2 := c3_pool_capacity c3Cfg [.acq 0 1, .acq 1 2]
    (acquirePool c3Cfg c3FullPool 5 42).1 5 42
  exact h2.2.2.2 (by rw [h.2.2.1 hq]; simp)

/-! ## C7: release -/

/-- Counterexample to C7 as stated: `c7Pool` holds session 7 (so release
does not throw NotInPool), that session's history has 3 entries and a
waiter is queued, yet `release` returns silently without clearing the
history or serving the waiter, because the entry is already idle —
`release` only clears and re-serves when the entry is marked in use. -/
theorem c7_release_counterexample :
    releasePool c7Pool 7 100 = (c7Pool, .alreadyIdle)
    ∧ (lookupAgent (releasePool c7Pool 7 100).1.agents 7).map (·.historyLen) =
        some 3
    ∧ (releasePool c7Pool 7 100).1.waitQueue = [9] := by
  exact ⟨rfl, rfl, rfl⟩

/-- Claim C7 (amended): `release(session)` throws NotInPool for a session
absent from the pool; for an in-pool entry that is currently in use it
clears the session's history, marks the entry idle (updating `lastUsed`),
and, when a waiter is queued and the session is still running, immediately
re-serves the oldest queued waiter with the same entry, incrementing its
`useCount`; releasing an in-pool entry that is already idle is a silent
no-op (no clear, no waiter served, pool state unchanged). -/
theorem c7_release_amended (s : PoolState) (id now : Nat) :
    (lookupAgent s.agents id = none →
      releasePool s id now = (s, .errNotInPool))
    ∧ (∀ e, lookupAgent s.agents id = some e → e.inUse = false →
        releasePool s id now = (s, .alreadyIdle))
    ∧ (∀ e, lookupAgent s.agents id = some e → e.inUse = true →
        s.waitQueue = [] →
        releasePool s id now =
          ({ s with agents := updateAgent s.agents id (clearedIdleEntry e now) },
            .released none))
    ∧ (∀ e w ws, lookupAgent s.agents id = some e → e.inUse = true →
        s.waitQueue = w :: ws → e.running = true →
        releasePool s id now =
          ({ s with
              agents := updateAgent s.agents id (reservedEntry e now)
              waitQueue := ws },
            .released (some w)))
    ∧ (∀ e w ws, lookupAgent s.agents id = some e → e.inUse = true →
        s.waitQueue = w :: ws → e.running = false →
        releasePool s id now =
          ({ s with agents := updateAgent s.agents id (clearedIdleEntry e now) },
            .released none)) := by
  refine ⟨?_, ?_, ?_, ?_, ?_⟩
  · intro hnone
    simp only [releasePool, hnone]
  · intro e he hidle
    simp only [releasePool, he, hidle]
    rfl
  · intro e he hin hq
    simp only [releasePool, he, hin, hq]
    rfl
  · intro e w ws he hin hq hrun
    simp only [releasePool, he, hin, hq, hrun]
    simp [reservedEntry, hrun]
  · intro e w ws he hin hq hrun
    simp only [releasePool, he, hin, hq, hrun]
    simp [clearedIdleEntry, hrun]

/-- Witness for C7 (amended) at a pool with one in-use entry and two queued
waiters: release clears the history, serves waiter 11, increments
`useCount`. -/
theorem c7_release_amended_witness :
    releasePool c7BusyPool 4 50 =
      ({ c7BusyPool with
          agents := updateAgent c7BusyPool.agents 4 (reservedEntry c7BusyEntry 50)
          waitQueue := [12] },
        .released (some 11)) :=
  (c7_release_amended c7BusyPool 4 50).2.2.2.1 c7BusyEntry 11 [12] rfl rfl rfl rfl

/-! ## C8: idle sweep -/

/-- Claim C8 evaluated at its failing input: `c8Pool` has three available
(idle, running) entries, all idle past `idleTimeout` at time 100; because
the sweep collects with `available` computed against the unmodified map and
destroys only afterwards, every entry passes the `available > minIdle`
check and all three are destroyed, leaving 0 available entries — below
`minIdle = 2`.  (The sweep does only destroy entries that are idle and
overdue, but the `minIdle` floor is not maintained.) -/
theorem c8_idle_sweep_eval :
    availableCount c8Pool.agents = 3
    ∧ c8Cfg.minIdle = 2
    ∧ (∀ e ∈ c8Pool.agents, e.inUse = false ∧ e.running = true ∧
        c8Cfg.idleTimeout < 100 - e.lastUsed)
    ∧ (sweepPool c8Cfg c8Pool 100).agents = []
    ∧ availableCount (sweepPool c8Cfg c8Pool 100).agents = 0 := by
  refine ⟨rfl, rfl, by decide, rfl, rfl⟩

/-! ## C10: pool exit handler -/

theorem lookupAgent_eq_none_of_not_mem (id : Nat) :
    ∀ l : List PooledAgent, (∀ e ∈ l, e.id ≠ id) →
      lookupAgent l id = none := by
  intro l
  induction l with
  | nil => intro _; rfl
  | cons x rest ih =>
    intro h
    simp only [lookupAgent]
    rw [if_neg (h x (List.mem_cons_self _ _))]
    exact ih (fun e he => h e (List.mem_cons_of_mem _ he))

theorem lookupAgent_eraseP_self (id : Nat) :
    ∀ l : List PooledAgent, (l.map (·.id)).Nodup →
      lookupAgent (l.eraseP (fun e => e.id == id)) id = none := by
  intro l
  induction l with
  | nil => intro _; rfl
  | cons x rest ih =>
    intro hnd
    have hnd' : x.id ∉ rest.map (·.id) ∧ (rest.map (·.id)).Nodup :=
      List.nodup_cons.1 (by simpa using hnd)
    by_cases hx : x.id = id
    · rw [List.eraseP_cons_of_pos (by simpa using hx)]
      refine lookupAgent_eq_none_of_not_mem id rest ?_
      intro e he hcon
      exact hnd'.1 (by
        rw [hx, ← hcon]
        exact List.mem_map.2 ⟨e, he, rfl⟩)
    · rw [List.eraseP_cons_of_neg (by simpa using hx)]
      simp only [lookupAgent, if_neg hx]
      exact ih hnd'.2

/-- Claim C10: the pool's per-agent exit handler deletes the exiting
session's entry from `_agents` unconditionally — in particular while the
entry is still marked in use — so a subsequent `release` of that session
finds no entry and throws the NotInPool error. -/
theorem c10_exit_deletes_entry (s : PoolState) (id now : Nat)
    (e : PooledAgent) (hnd : (s.agents.map (·.id)).Nodup)
    (_hm : lookupAgent s.agents id = some e) (_hin : e.inUse = true) :
    lookupAgent (exitPool s id).agents id = none
    ∧ releasePool (exitPool s id) id now = (exitPool s id, .errNotInPool) := by
  have hnone : lookupAgent (exitPool s id).agents id = none :=
    lookupAgent_eraseP_self id s.agents hnd
  refine ⟨hnone, ?_⟩
  simp only [releasePool, hnone]

/-- Witness for C10: the single in-use entry of `c10Pool` exits; release
then throws NotInPool. -/
theorem c10_exit_deletes_entry_witness :
    lookupAgent (exitPool c10Pool 3).agents 3 = none
    ∧ releasePool (exitPool c10Pool 3) 3 99 =
        (exitPool c10Pool 3, .errNotInPool) :=
  c10_exit_deletes_entry c10Pool 3 99
    { id := 3, running := true, historyLen := 2, inUse := true,
      lastUsed := 7, useCount := 1 }
    (by decide) rfl rfl

end Ptyx
